import Mathlib

/-!
# Verification of `experiment.c`

A shallow embedding of the four C functions of `src/experiment.c`
(`calculate_fibonacci`, `sum_array`, `update_point`, `main`) together with
theorems about them.

Modelling conventions.

* A C `int` is a 32-bit two's-complement integer.  Values are carried as
  `Int`; every addition the program performs on `int`s is followed by
  `wrap32`, the reduction modulo `2^32` into `[-2^31, 2^31 - 1]`.
* A C `char` is carried as a `Char`; the array `char name[20]` is a list of
  exactly twenty characters.
* Reading or writing outside an array is undefined behaviour in C; the
  embedding returns `none` there.
-/

namespace Experiment

/-! ## Machine integers -/

/-- Smallest value of a 32-bit signed `int`. -/
def INT_MIN : Int := -2147483648

/-- Largest value of a 32-bit signed `int`. -/
def INT_MAX : Int := 2147483647

/-- Predicate: the integer is representable as a 32-bit signed `int`. -/
def InIntRange (z : Int) : Prop := INT_MIN ≤ z ∧ z ≤ INT_MAX

instance (z : Int) : Decidable (InIntRange z) := by
  unfold InIntRange; exact inferInstance

/-- Reduction of a mathematical integer to the 32-bit signed value it has
after two's-complement wrap-around. -/
def wrap32 (z : Int) : Int := (z + 2147483648) % 4294967296 - 2147483648

/-! ## `calculate_fibonacci` (experiment.c, lines 5-10) -/

/-- C source:
```
int calculate_fibonacci(int n) {
    if (n <= 1) { return n; }
    return calculate_fibonacci(n - 1) + calculate_fibonacci(n - 2);
}
```
The subtractions `n - 1`, `n - 2` happen only when `n ≥ 2`, so they cannot
leave the `int` range; the addition of the two results can, and wraps. -/
def calculate_fibonacci (n : Int) : Int :=
  if n ≤ 1 then n
  else wrap32 (calculate_fibonacci (n - 1) + calculate_fibonacci (n - 2))
termination_by n.toNat
decreasing_by
  all_goals simp_wf
  all_goals omega

/-- Reference sequence, written from the specification:
`F(0) = 0`, `F(1) = 1`, `F(n) = F(n-1) + F(n-2)` for `n ≥ 2`. -/
def fib_spec : Nat → Nat
  | 0 => 0
  | 1 => 1
  | n + 2 => fib_spec (n + 1) + fib_spec n

/-- Arguments of the recursive calls that `calculate_fibonacci n` makes
itself: none on the branch `n <= 1`, otherwise `n - 1` and `n - 2`. -/
def fib_calls (n : Int) : List Int :=
  if n ≤ 1 then [] else [n - 1, n - 2]

/-- The body of `calculate_fibonacci` run with a bound on the depth of
nested calls: `none` when a call would be needed and the bound is used up.
A run that never came back would give `none` for every bound. -/
def calculate_fibonacci_fuel : Nat → Int → Option Int
  | 0, _ => none
  | fuel + 1, n =>
    if n ≤ 1 then some n
    else
      match calculate_fibonacci_fuel fuel (n - 1), calculate_fibonacci_fuel fuel (n - 2) with
      | some a, some b => some (wrap32 (a + b))
      | _, _ => none

/-- The body of `calculate_fibonacci` with every `int` addition checked:
`none` as soon as the exact sum of an addition, here or in a nested call,
lies outside the 32-bit range. -/
def calculate_fibonacci_checked (n : Int) : Option Int :=
  if n ≤ 1 then some n
  else
    match calculate_fibonacci_checked (n - 1), calculate_fibonacci_checked (n - 2) with
    | some a, some b => if InIntRange (a + b) then some (a + b) else none
    | _, _ => none
termination_by n.toNat
decreasing_by
  all_goals simp_wf
  all_goals omega

/-! ## `sum_array` (experiment.c, lines 13-22) -/

/-- The loop `for (i = 0; i < size; i++) { sum += arr[i]; }` of `sum_array`,
entered with the current values of `i` and `sum`.  The list `arr` holds the
elements available behind the pointer; reading `arr[i]` beyond them is
undefined and gives `none`.  The counter starts at `0` and only grows, so it
is a natural number; `i++` cannot overflow because `i < size ≤ INT_MAX`.
The accumulation `sum += arr[i]` is an `int` addition and wraps. -/
def sum_array_loop (arr : List Int) (size : Int) (i : Nat) (sum : Int) : Option Int :=
  if (i : Int) < size then
    match arr[i]? with
    | some a => sum_array_loop arr size (i + 1) (wrap32 (sum + a))
    | none => none
  else some sum
termination_by (size - i).toNat
decreasing_by
  all_goals simp_wf
  all_goals omega

/-- C source:
```
int sum_array(int *arr, int size) {
    int sum = 0;
    int i;
    for (i = 0; i < size; i++) { sum += arr[i]; }
    return sum;
}
``` -/
def sum_array (arr : List Int) (size : Int) : Option Int :=
  sum_array_loop arr size 0 0

/-- The loop of `sum_array` once more, also recording in `reads` the index
of every element access `arr[i]`; the loop body runs once per recorded
index. -/
def sum_array_loop_reads (arr : List Int) (size : Int) (i : Nat) (sum : Int)
    (reads : List Nat) : Option (Int × List Nat) :=
  if (i : Int) < size then
    match arr[i]? with
    | some a => sum_array_loop_reads arr size (i + 1) (wrap32 (sum + a)) (reads ++ [i])
    | none => none
  else some (sum, reads)
termination_by (size - i).toNat
decreasing_by
  all_goals simp_wf
  all_goals omega

/-- The function `sum_array` with the record of its element accesses. -/
def sum_array_reads (arr : List Int) (size : Int) : Option (Int × List Nat) :=
  sum_array_loop_reads arr size 0 0 []

/-- Arithmetic sum of the first `k` elements, accumulated left to right from
`0` over the mathematical integers, as the specification words it. -/
def arith_sum (arr : List Int) (k : Nat) : Int :=
  (arr.take k).foldl (fun acc a => acc + a) 0

/-! ## `Point` and `update_point` (experiment.c, lines 25-35) -/

/-- Number of bytes of the array `char name[20]`. -/
def NAME_SIZE : Nat := 20

/-- Contents of a `char name[20]` array: exactly twenty characters. -/
def NameBuf : Type := { l : List Char // l.length = NAME_SIZE }

/-- C source:
```
typedef struct { int x; int y; char name[20]; } Point;
``` -/
structure Point where
  x : Int
  y : Int
  name : NameBuf

/-- Characters printed by the conversion `%d` for an `int`: a minus sign for
a negative value, then the decimal digits of the magnitude. -/
def format_int (z : Int) : List Char :=
  if z < 0 then '-' :: Nat.toDigits 10 z.natAbs else Nat.toDigits 10 z.toNat

/-- Characters printed by the format string `"Point(%d,%d)"`. -/
def format_point (new_x new_y : Int) : List Char :=
  "Point(".toList ++ format_int new_x ++ ",".toList ++ format_int new_y ++ ")".toList

/-- Effect of `sprintf(name, ...)` on the destination array when the
formatted output is `s`: the characters of `s`, then the terminating NUL,
the remaining bytes of the array untouched.  When `s` and its terminator
need more than the twenty bytes of the array the write runs past its end,
which is undefined: `none`. -/
def sprintf_name (buf : NameBuf) (s : List Char) : Option NameBuf :=
  if h : s.length + 1 ≤ NAME_SIZE then
    some ⟨s ++ '\x00' :: buf.val.drop (s.length + 1), by
      have hb := buf.property
      simp only [List.length_append, List.length_cons, List.length_drop, hb]
      omega⟩
  else none

/-- C source:
```
void update_point(Point *p, int new_x, int new_y) {
    p->x = new_x;
    p->y = new_y;
    sprintf(p->name, "Point(%d,%d)", new_x, new_y);
}
```
The record is passed in and the updated record returned. -/
def update_point (p : Point) (new_x new_y : Int) : Option Point :=
  let p1 : Point := { p with x := new_x }
  let p2 : Point := { p1 with y := new_y }
  match sprintf_name p2.name (format_point new_x new_y) with
  | some buf => some { p2 with name := buf }
  | none => none

/-- The C string held in a character array, as `printf("%s")` reads it: the
characters before the first NUL.  An array without a NUL makes the read run
past its end: `none`. -/
def cstr (buf : List Char) : Option (List Char) :=
  if '\x00' ∈ buf then some (buf.takeWhile (fun c => c != '\x00')) else none

/-- The label of a record: the C string in its `name` array. -/
def Point.label (p : Point) : Option (List Char) := cstr p.name.val

/-- What a caller can observe of a record: `x`, `y` and the label string. -/
def Point.observe (p : Point) : Option (Int × Int × List Char) :=
  (Point.label p).map (fun s => (p.x, p.y, s))

/-- The formatted label and its terminating NUL fit the `name` array. -/
def label_fits (new_x new_y : Int) : Prop :=
  (format_point new_x new_y).length + 1 ≤ NAME_SIZE

instance (new_x new_y : Int) : Decidable (label_fits new_x new_y) := by
  unfold label_fits; exact inferInstance

/-- A sample record with leftover content: no NUL anywhere in `name`, so
its label cannot be read before an update. -/
def point_junk : Point :=
  ⟨-7, 123456, ⟨List.replicate 20 '#', rfl⟩⟩

/-! ## `main` (experiment.c, lines 38-63) -/

/-- C source:
```
int main() {
    int numbers[] = {1, 2, 3, 4, 5, 6, 7, 8, 9, 10};
    int array_size = 10;
    int total = sum_array(numbers, array_size);
    printf("Sum of array: %d\n", total);
    int fib_result = calculate_fibonacci(10);
    printf("Fibonacci(10): %d\n", fib_result);
    Point my_point;
    update_point(&my_point, 42, 84);
    printf("Point: %s at (%d, %d)\n", my_point.name, my_point.x, my_point.y);
    if (total > fib_result) { printf("Array sum is greater\n"); }
    else { printf("Fibonacci is greater or equal\n"); }
    return 0;
}
```
The argument is the content of the uninitialised local `my_point`.  The
result is the text written to standard output and the exit code. -/
def main (my_point : Point) : Option (List Char × Int) := do
  let numbers : List Int := [1, 2, 3, 4, 5, 6, 7, 8, 9, 10]
  let array_size : Int := 10
  let total ← sum_array numbers array_size
  let out1 := "Sum of array: ".toList ++ format_int total ++ "\n".toList
  let fib_result := calculate_fibonacci 10
  let out2 := "Fibonacci(10): ".toList ++ format_int fib_result ++ "\n".toList
  let my_point ← update_point my_point 42 84
  let name ← cstr my_point.name.val
  let out3 := "Point: ".toList ++ name ++ " at (".toList ++ format_int my_point.x
    ++ ", ".toList ++ format_int my_point.y ++ ")\n".toList
  let out4 :=
    if total > fib_result then "Array sum is greater\n".toList
    else "Fibonacci is greater or equal\n".toList
  pure (out1 ++ out2 ++ out3 ++ out4, 0)

/-! ## Theorems -/

theorem wrap32_of_inRange {z : Int} (h : InIntRange z) : wrap32 z = z := by
  unfold InIntRange INT_MIN INT_MAX at h
  unfold wrap32
  omega

theorem wrap32_inRange (z : Int) : InIntRange (wrap32 z) := by
  unfold InIntRange INT_MIN INT_MAX wrap32
  omega

theorem wrap32_add_wrap32_left (a b : Int) : wrap32 (wrap32 a + b) = wrap32 (a + b) := by
  unfold wrap32
  omega

theorem wrap32_add_wrap32_right (a b : Int) : wrap32 (a + wrap32 b) = wrap32 (a + b) := by
  unfold wrap32
  omega

theorem calculate_fibonacci_base {n : Int} (h : n ≤ 1) : calculate_fibonacci n = n := by
  rw [calculate_fibonacci, if_pos h]

theorem calculate_fibonacci_step {n : Int} (h : 2 ≤ n) :
    calculate_fibonacci n
      = wrap32 (calculate_fibonacci (n - 1) + calculate_fibonacci (n - 2)) := by
  rw [calculate_fibonacci, if_neg (by omega)]

/-! ### Fibonacci -/

theorem fib_spec_eq_fib (n : Nat) : fib_spec n = Nat.fib n := by
  induction n using Nat.strong_induction_on with
  | _ n ih =>
    match n with
    | 0 => rfl
    | 1 => rfl
    | k + 2 =>
      rw [fib_spec, ih (k + 1) (by omega), ih k (by omega), Nat.fib_add_two]
      omega

theorem fib_spec_mono {m n : Nat} (h : m ≤ n) : fib_spec m ≤ fib_spec n := by
  rw [fib_spec_eq_fib, fib_spec_eq_fib]
  exact Nat.fib_mono h

theorem fib_spec_45 : fib_spec 45 = 1134903170 := by
  rw [fib_spec_eq_fib]; norm_num

theorem fib_spec_46 : fib_spec 46 = 1836311903 := by
  rw [fib_spec_eq_fib]; norm_num

theorem fib_spec_47 : fib_spec 47 = 2971215073 := by
  rw [fib_spec_eq_fib]; norm_num

/-- On a non-negative argument the C function computes the reference
sequence reduced to 32 bits. -/
theorem calculate_fibonacci_eq_wrap (n : Nat) :
    calculate_fibonacci (n : Int) = wrap32 (fib_spec n : Int) := by
  induction n using Nat.strong_induction_on with
  | _ n ih =>
    match n with
    | 0 => rw [calculate_fibonacci_base (by norm_num)]; rfl
    | 1 => rw [calculate_fibonacci_base (by norm_num)]; rfl
    | k + 2 =>
      rw [calculate_fibonacci_step (by omega)]
      have e1 : ((k + 2 : Nat) : Int) - 1 = ((k + 1 : Nat) : Int) := by omega
      have e2 : ((k + 2 : Nat) : Int) - 2 = (k : Int) := by omega
      rw [e1, e2, ih (k + 1) (by omega), ih k (by omega), wrap32_add_wrap32_left,
        wrap32_add_wrap32_right, fib_spec]
      push_cast
      rfl

theorem fib_spec_inRange {n : Nat} (h : n ≤ 46) : InIntRange (fib_spec n : Int) := by
  have h1 := fib_spec_mono h
  rw [fib_spec_46] at h1
  unfold InIntRange INT_MIN INT_MAX
  omega

theorem calculate_fibonacci_exact (n : Nat) (h : n ≤ 46) :
    calculate_fibonacci (n : Int) = (fib_spec n : Int) := by
  rw [calculate_fibonacci_eq_wrap, wrap32_of_inRange (fib_spec_inRange h)]

theorem calculate_fibonacci_45 : calculate_fibonacci 45 = 1134903170 := by
  have h := calculate_fibonacci_exact 45 (by norm_num)
  rw [fib_spec_45] at h
  exact_mod_cast h

theorem calculate_fibonacci_46 : calculate_fibonacci 46 = 1836311903 := by
  have h := calculate_fibonacci_exact 46 (by norm_num)
  rw [fib_spec_46] at h
  exact_mod_cast h

theorem calculate_fibonacci_47 : calculate_fibonacci 47 = -1323752223 := by
  have h := calculate_fibonacci_eq_wrap 47
  rw [fib_spec_47] at h
  have e : wrap32 ((2971215073 : Nat) : Int) = -1323752223 := by decide
  rw [e] at h
  exact_mod_cast h

/-- C1, as stated, fails at `n = 47`: the 32-bit result is `-1323752223`,
the 47th term of the reference sequence is `2971215073`. -/
theorem calculate_fibonacci_47_ne_fib_spec :
    (0 : Int) ≤ 47 ∧ InIntRange 47 ∧ calculate_fibonacci 47 = -1323752223 ∧
      fib_spec (Int.toNat 47) = 2971215073 ∧
      calculate_fibonacci 47 ≠ (fib_spec (Int.toNat 47) : Int) := by
  have e : Int.toNat 47 = 47 := rfl
  refine ⟨by decide, by decide, calculate_fibonacci_47, ?_, ?_⟩
  · rw [e, fib_spec_47]
  · rw [e, calculate_fibonacci_47, fib_spec_47]
    decide

/-- C1 (amended): for every `n` with `0 ≤ n ≤ 46`, `calculate_fibonacci n` is
the `n`-th term of the sequence `F(0) = 0`, `F(1) = 1`,
`F(n) = F(n-1) + F(n-2)`. -/
theorem calculate_fibonacci_correct (n : Int) (h0 : 0 ≤ n) (h46 : n ≤ 46) :
    calculate_fibonacci n = (fib_spec n.toNat : Int) := by
  obtain ⟨k, rfl⟩ := Int.eq_ofNat_of_zero_le h0
  rw [Int.toNat_ofNat]
  exact calculate_fibonacci_exact k (by omega)

/-- C1 (amended) at `n = 10`. -/
theorem calculate_fibonacci_correct_witness :
    calculate_fibonacci 10 = (fib_spec (Int.toNat 10) : Int) :=
  calculate_fibonacci_correct 10 (by decide) (by decide)

/-- C5, as stated, fails at `n = 47`: the exact sum of the two preceding
results is `2971215073`, the function returns `-1323752223`. -/
theorem calculate_fibonacci_47_ne_sum :
    (2 : Int) ≤ 47 ∧ InIntRange 47 ∧
      calculate_fibonacci (47 - 1) + calculate_fibonacci (47 - 2) = 2971215073 ∧
      calculate_fibonacci 47 ≠ calculate_fibonacci (47 - 1) + calculate_fibonacci (47 - 2) := by
  have e1 : (47 : Int) - 1 = 46 := rfl
  have e2 : (47 : Int) - 2 = 45 := rfl
  refine ⟨by decide, by decide, ?_, ?_⟩
  · rw [e1, e2, calculate_fibonacci_46, calculate_fibonacci_45]
    decide
  · rw [e1, e2, calculate_fibonacci_47, calculate_fibonacci_46, calculate_fibonacci_45]
    decide

/-- C5 (amended): for every `n` with `2 ≤ n ≤ 46`,
`calculate_fibonacci n = calculate_fibonacci (n-1) + calculate_fibonacci (n-2)`
as an exact integer equality; for every `n ≥ 2` the equality holds after the
32-bit wrap-around of the sum. -/
theorem calculate_fibonacci_recurrence (n : Int) (h2 : 2 ≤ n) :
    calculate_fibonacci n
        = wrap32 (calculate_fibonacci (n - 1) + calculate_fibonacci (n - 2)) ∧
      (n ≤ 46 →
        calculate_fibonacci n = calculate_fibonacci (n - 1) + calculate_fibonacci (n - 2)) := by
  refine ⟨calculate_fibonacci_step h2, fun h46 => ?_⟩
  obtain ⟨k, rfl⟩ := Int.eq_ofNat_of_zero_le (by omega : (0 : Int) ≤ n)
  obtain ⟨j, rfl⟩ : ∃ j, k = j + 2 := ⟨k - 2, by omega⟩
  have e1 : ((j + 2 : Nat) : Int) - 1 = ((j + 1 : Nat) : Int) := by omega
  have e2 : ((j + 2 : Nat) : Int) - 2 = (j : Int) := by omega
  rw [e1, e2, calculate_fibonacci_exact (j + 2) (by omega),
    calculate_fibonacci_exact (j + 1) (by omega), calculate_fibonacci_exact j (by omega),
    fib_spec]
  push_cast
  rfl

/-- C5 (amended) at `n = 10`. -/
theorem calculate_fibonacci_recurrence_witness :
    calculate_fibonacci 10 = calculate_fibonacci (10 - 1) + calculate_fibonacci (10 - 2) :=
  (calculate_fibonacci_recurrence 10 (by decide)).2 (by decide)

/-- C9: for every integer `n ≤ 1`, `calculate_fibonacci n` returns `n`
unchanged; a negative argument is returned as it is. -/
theorem calculate_fibonacci_le_one (n : Int) (h : n ≤ 1) : calculate_fibonacci n = n :=
  calculate_fibonacci_base h

/-- C9 at `n = -5`. -/
theorem calculate_fibonacci_le_one_witness : calculate_fibonacci (-5) = -5 :=
  calculate_fibonacci_le_one (-5) (by decide)

/-! ### Array sum -/

theorem foldl_add_eq_sum (l : List Int) (s : Int) :
    l.foldl (fun acc a => acc + a) s = s + l.sum := by
  induction l generalizing s with
  | nil => simp
  | cons a t ih => rw [List.foldl_cons, ih, List.sum_cons]; omega

theorem arith_sum_eq_sum (arr : List Int) (k : Nat) : arith_sum arr k = (arr.take k).sum := by
  unfold arith_sum
  rw [foldl_add_eq_sum]
  omega

theorem foldl_wrap_eq (l : List Int) (s : Int) :
    l.foldl (fun acc a => wrap32 (acc + a)) (wrap32 s) = wrap32 (s + l.sum) := by
  induction l generalizing s with
  | nil => simp
  | cons a t ih =>
    rw [List.foldl_cons, wrap32_add_wrap32_left, ih, List.sum_cons]
    congr 1
    omega

/-- Loop invariant of `sum_array`: with `k` iterations left and all of them
inside the array, the loop returns the wrapped accumulation of the next `k`
elements onto the current `sum`. -/
theorem sum_array_loop_eq (arr : List Int) (size : Int) :
    ∀ (k i : Nat) (sum : Int), (i : Int) + k = size → i + k ≤ arr.length →
      sum_array_loop arr size i sum
        = some (((arr.drop i).take k).foldl (fun acc a => wrap32 (acc + a)) sum) := by
  intro k
  induction k with
  | zero =>
    intro i sum hsz _
    rw [sum_array_loop, if_neg (by omega)]
    simp
  | succ k ih =>
    intro i sum hsz hlen
    have hi : i < arr.length := by omega
    rw [sum_array_loop, if_pos (by omega), List.getElem?_eq_getElem hi]
    simp only
    rw [ih (i + 1) _ (by omega) (by omega), List.drop_eq_getElem_cons hi, List.take_succ_cons,
      List.foldl_cons]

theorem sum_array_eq_wrap (arr : List Int) (size : Int) (h0 : 0 ≤ size)
    (hlen : size ≤ arr.length) :
    sum_array arr size = some (wrap32 (arith_sum arr size.toNat)) := by
  unfold sum_array
  rw [sum_array_loop_eq arr size size.toNat 0 0 (by omega) (by omega), List.drop_zero,
    arith_sum_eq_sum]
  have h := foldl_wrap_eq (arr.take size.toNat) 0
  have e : wrap32 0 = 0 := rfl
  rw [e, zero_add] at h
  rw [h]

theorem sum_array_overflow_example :
    sum_array [2147483647, 1] 2 = some (-2147483648) := by
  rw [sum_array_eq_wrap _ _ (by decide) (by decide)]
  decide

/-- C2, as stated, fails on the two-element array `{2147483647, 1}` with
`size = 2`: the arithmetic sum is `2147483648`, the function returns
`-2147483648`. -/
theorem sum_array_ne_arith_sum :
    InIntRange 2147483647 ∧ InIntRange 1 ∧
      (0 : Int) ≤ 2 ∧ (2 : Int) ≤ ([2147483647, 1] : List Int).length ∧
      sum_array [2147483647, 1] 2 = some (-2147483648) ∧
      arith_sum [2147483647, 1] (Int.toNat 2) = 2147483648 ∧
      sum_array [2147483647, 1] 2 ≠ some (arith_sum [2147483647, 1] (Int.toNat 2)) := by
  refine ⟨by decide, by decide, by decide, by decide, sum_array_overflow_example, by decide, ?_⟩
  rw [sum_array_overflow_example]
  decide

/-- C2 (amended): for every array and every `size` with
`0 ≤ size ≤ length`, `sum_array` returns the left-to-right arithmetic sum of
the first `size` elements reduced to 32 bits by wrap-around; when no sum of
a leading segment leaves the `int` range it returns that arithmetic sum
itself. -/
theorem sum_array_correct (arr : List Int) (size : Int) (h0 : 0 ≤ size)
    (hlen : size ≤ arr.length) :
    sum_array arr size = some (wrap32 (arith_sum arr size.toNat)) ∧
      ((∀ k, k ≤ size.toNat → InIntRange (arith_sum arr k)) →
        sum_array arr size = some (arith_sum arr size.toNat)) := by
  refine ⟨sum_array_eq_wrap arr size h0 hlen, fun hr => ?_⟩
  rw [sum_array_eq_wrap arr size h0 hlen, wrap32_of_inRange (hr _ (le_refl _))]

/-- C2 (amended) on the array `{3, -1, 4}` with `size = 2`. -/
theorem sum_array_correct_witness :
    sum_array [3, -1, 4] 2 = some (arith_sum [3, -1, 4] (Int.toNat 2)) :=
  (sum_array_correct [3, -1, 4] 2 (by decide) (by decide)).2
    (by intro k hk; have hk2 : k ≤ 2 := hk; interval_cases k <;> decide)

/-- C6: for every array and every permutation of it, `sum_array` over the
whole permuted array returns the same value as over the whole original
array. -/
theorem sum_array_perm (arr arr' : List Int) (h : arr.Perm arr') :
    ∃ v, sum_array arr arr.length = some v ∧ sum_array arr' arr'.length = some v := by
  refine ⟨wrap32 arr.sum, ?_, ?_⟩
  · rw [sum_array_eq_wrap arr arr.length (by omega) (le_refl _), arith_sum_eq_sum]
    simp
  · rw [sum_array_eq_wrap arr' arr'.length (by omega) (le_refl _), arith_sum_eq_sum,
      h.sum_eq]
    simp

/-- C6 on `{1, 2, 3}` and its rearrangement `{3, 1, 2}`. -/
theorem sum_array_perm_witness :
    ∃ v, sum_array [1, 2, 3] ([1, 2, 3] : List Int).length = some v ∧
      sum_array [3, 1, 2] ([3, 1, 2] : List Int).length = some v :=
  sum_array_perm [1, 2, 3] [3, 1, 2] (by decide)

/-! ### Point records -/

theorem digitChar_ne_nul (d : Nat) (h : d < 10) : Nat.digitChar d ≠ '\x00' := by
  interval_cases d <;> decide

theorem toDigitsCore_no_nul (fuel : Nat) :
    ∀ (n : Nat) (acc : List Char), '\x00' ∉ acc → '\x00' ∉ Nat.toDigitsCore 10 fuel n acc := by
  induction fuel with
  | zero => intro n acc h; simpa [Nat.toDigitsCore] using h
  | succ f ih =>
    intro n acc h
    have hcons : '\x00' ∉ Nat.digitChar (n % 10) :: acc := by
      intro hm
      rcases List.mem_cons.mp hm with h1 | h1
      · exact digitChar_ne_nul _ (Nat.mod_lt _ (by decide)) h1.symm
      · exact h h1
    unfold Nat.toDigitsCore
    simp only
    split_ifs
    · exact hcons
    · exact ih _ _ hcons

theorem format_int_no_nul (z : Int) : '\x00' ∉ format_int z := by
  unfold format_int Nat.toDigits
  split_ifs
  · intro hm
    rcases List.mem_cons.mp hm with h1 | h1
    · exact absurd h1 (by decide)
    · exact toDigitsCore_no_nul _ _ _ (List.not_mem_nil _) h1
  · exact toDigitsCore_no_nul _ _ _ (List.not_mem_nil _)

theorem format_point_no_nul (x y : Int) : '\x00' ∉ format_point x y := by
  unfold format_point
  simp only [List.mem_append, not_or]
  exact ⟨⟨⟨⟨by decide, format_int_no_nul x⟩, by decide⟩, format_int_no_nul y⟩, by decide⟩

theorem cstr_append_nul (s rest : List Char) (h : '\x00' ∉ s) :
    cstr (s ++ '\x00' :: rest) = some s := by
  unfold cstr
  rw [if_pos (by simp)]
  congr 1
  induction s with
  | nil => simp
  | cons c t ih =>
    have hc : c ≠ '\x00' := fun e => h (by simp [e])
    have ht : '\x00' ∉ t := fun e => h (by simp [e])
    simp [List.takeWhile_cons, hc, ih ht]

/-- When the label fits, `update_point` returns the record with the two
fields set and the label written at the start of `name`, the bytes behind
the terminator left as they were. -/
theorem update_point_some (p : Point) (x y : Int) (h : label_fits x y) :
    ∃ q, update_point p x y = some q ∧ q.x = x ∧ q.y = y ∧
      q.name.val
        = format_point x y ++ '\x00' :: p.name.val.drop ((format_point x y).length + 1) := by
  unfold label_fits at h
  unfold update_point sprintf_name
  simp only [dif_pos h]
  exact ⟨_, rfl, rfl, rfl, rfl⟩

theorem update_point_none (p : Point) (x y : Int) (h : ¬ label_fits x y) :
    update_point p x y = none := by
  unfold label_fits at h
  unfold update_point sprintf_name
  simp only [dif_neg h]

theorem update_point_fits_of_some {p q : Point} {x y : Int} (h : update_point p x y = some q) :
    label_fits x y := by
  by_contra hn
  rw [update_point_none p x y hn] at h
  exact Option.noConfusion h

theorem update_point_post {p q : Point} {x y : Int} (h : update_point p x y = some q) :
    q.x = x ∧ q.y = y ∧ Point.label q = some (format_point x y) := by
  obtain ⟨q1, hq, hx, hy, hn⟩ := update_point_some p x y (update_point_fits_of_some h)
  rw [h] at hq
  cases hq
  refine ⟨hx, hy, ?_⟩
  unfold Point.label
  rw [hn]
  exact cstr_append_nul _ _ (format_point_no_nul x y)

theorem update_point_observe (p : Point) (x y : Int) (h : label_fits x y) :
    (update_point p x y).bind Point.observe = some (x, y, format_point x y) := by
  obtain ⟨q, hq, -⟩ := update_point_some p x y h
  obtain ⟨hx, hy, hl⟩ := update_point_post hq
  rw [hq, Option.some_bind]
  unfold Point.observe
  rw [hl, hx, hy]
  rfl

/-- C3, at the failing input: `-2147483648` is an `int`, and for every
record `update_point(p, -2147483648, -2147483648)` has no defined result,
because the write of the label runs past the end of `name`; the record is
not left with the label `Point(-2147483648,-2147483648)`. -/
theorem update_point_int_min_undefined (p : Point) :
    InIntRange (-2147483648) ∧ update_point p (-2147483648) (-2147483648) = none :=
  ⟨by decide, rfl⟩

/-- C7, at the failing input: both coordinates `-2147483648` are 32-bit
signed integers, the label `Point(-2147483648,-2147483648)` with its
terminator takes 31 bytes, and 31 bytes do not fit the 20-byte array. -/
theorem name_array_too_small_for_int_min :
    InIntRange (-2147483648) ∧
      (format_point (-2147483648) (-2147483648)).length + 1 = 31 ∧
      ¬ label_fits (-2147483648) (-2147483648) := by
  refine ⟨by decide, by decide, by decide⟩

/-- C8, at the failing input: `-2147483648` and `0` are `int`s, and from
every record the call `update_point(&r, -2147483648, -2147483648)` runs the
label write past the end of `name`, so it yields no record state whose label
is `Point(<x>,<y>)` of its fields; a following call with `(0, 0)` is then
not defined either, while the same call on the original record is, with the
label `Point(0,0)`. -/
theorem label_invariant_lost_at_int_min (r : Point) :
    InIntRange (-2147483648) ∧ InIntRange 0 ∧
      (update_point r (-2147483648) (-2147483648)).bind Point.label = none ∧
      (¬ ∃ p, update_point r (-2147483648) (-2147483648) = some p ∧
        Point.label p = some (format_point p.x p.y)) ∧
      (update_point r (-2147483648) (-2147483648)).bind
          (fun r1 => (update_point r1 0 0).bind Point.observe) = none ∧
      (update_point r 0 0).bind Point.observe = some (0, 0, format_point 0 0) ∧
      format_point 0 0 = "Point(0,0)".toList := by
  have hnone : update_point r (-2147483648) (-2147483648) = none := rfl
  refine ⟨by decide, by decide, ?_, ?_, ?_, update_point_observe r 0 0 (by decide), by decide⟩
  · rw [hnone]; rfl
  · rintro ⟨p, hp, -⟩
    rw [hnone] at hp
    exact Option.noConfusion hp
  · rw [hnone]; rfl

theorem sum_array_numbers :
    sum_array [1, 2, 3, 4, 5, 6, 7, 8, 9, 10] 10 = some 55 := by
  rw [sum_array_eq_wrap _ _ (by decide) (by decide)]
  decide

theorem calculate_fibonacci_10 : calculate_fibonacci 10 = 55 := by
  have h := calculate_fibonacci_exact 10 (by norm_num)
  have e : fib_spec 10 = 55 := by decide
  rw [e] at h
  exact_mod_cast h

/-- C4: whatever the uninitialised local record holds, `main` writes exactly
the four lines `Sum of array: 55`, `Fibonacci(10): 55`,
`Point: Point(42,84) at (42, 84)`, `Fibonacci is greater or equal`, in that
order, and returns exit code 0; the array sum and the Fibonacci value are
both 55, so the sum is not greater. -/
theorem main_output (my_point : Point) :
    main my_point
        = some (("Sum of array: 55\n" ++ "Fibonacci(10): 55\n"
            ++ "Point: Point(42,84) at (42, 84)\n"
            ++ "Fibonacci is greater or equal\n").toList, 0) ∧
      sum_array [1, 2, 3, 4, 5, 6, 7, 8, 9, 10] 10 = some 55 ∧
      calculate_fibonacci 10 = 55 ∧ ¬ ((55 : Int) > 55) := by
  refine ⟨?_, sum_array_numbers, calculate_fibonacci_10, by decide⟩
  obtain ⟨q, hq, -⟩ := update_point_some my_point 42 84 (by decide)
  obtain ⟨hx, hy, hl⟩ := update_point_post hq
  unfold Point.label at hl
  unfold main
  simp only [sum_array_numbers, calculate_fibonacci_10, hq, hl, hx, hy, Option.bind_eq_bind,
    Option.some_bind, Option.pure_def]
  decide

/-! ### Documented values -/

/-- C11: `calculate_fibonacci(0) = 0`, `calculate_fibonacci(1) = 1` and
`calculate_fibonacci(10) = 55`, as exact integer equalities. -/
theorem calculate_fibonacci_values :
    calculate_fibonacci 0 = 0 ∧ calculate_fibonacci 1 = 1 ∧ calculate_fibonacci 10 = 55 :=
  ⟨calculate_fibonacci_base (by decide), calculate_fibonacci_base (by decide),
    calculate_fibonacci_10⟩

/-- C12: `sum_array` on the array `{1, 2, ..., 10}` with `size = 10` returns
55, and on the empty array with `size = 0` returns 0. -/
theorem sum_array_values :
    sum_array [1, 2, 3, 4, 5, 6, 7, 8, 9, 10] 10 = some 55 ∧ sum_array [] 0 = some 0 := by
  refine ⟨sum_array_numbers, ?_⟩
  unfold sum_array
  rw [sum_array_loop, if_neg (by decide)]

/-! ### Termination of the recursion -/

/-- Once the depth bound is positive and at least `n`, the bounded run
returns, with the value of `calculate_fibonacci n`. -/
theorem calculate_fibonacci_fuel_eq (fuel : Nat) :
    ∀ n : Int, 0 < fuel → n.toNat ≤ fuel →
      calculate_fibonacci_fuel fuel n = some (calculate_fibonacci n) := by
  induction fuel with
  | zero => intro n h; exact absurd h (by decide)
  | succ f ih =>
    intro n _ hn
    unfold calculate_fibonacci_fuel
    by_cases h1 : n ≤ 1
    · rw [if_pos h1, calculate_fibonacci_base h1]
    · rw [if_neg h1, ih (n - 1) (by omega) (by omega), ih (n - 2) (by omega) (by omega),
        @calculate_fibonacci_step n (by omega)]

theorem fib_calls_smaller (n m : Int) (h : m ∈ fib_calls n) :
    2 ≤ n ∧ m < n ∧ m.toNat < n.toNat := by
  unfold fib_calls at h
  by_cases h1 : n ≤ 1
  · rw [if_pos h1] at h
    exact absurd h (List.not_mem_nil _)
  · rw [if_neg h1] at h
    simp only [List.mem_cons, List.mem_singleton, List.not_mem_nil, or_false] at h
    rcases h with rfl | rfl <;> omega

/-- C13: `calculate_fibonacci` returns for every integer argument, negative
ones included: a run whose depth bound is positive and at least `n` comes
back with the result, and every recursive call is made only when `n >= 2`,
on an argument strictly smaller than `n`. -/
theorem calculate_fibonacci_terminates (n : Int) :
    calculate_fibonacci_fuel (n.toNat + 1) n = some (calculate_fibonacci n) ∧
      (∀ fuel : Nat, 0 < fuel → n.toNat ≤ fuel →
        calculate_fibonacci_fuel fuel n = some (calculate_fibonacci n)) ∧
      (∀ m ∈ fib_calls n, 2 ≤ n ∧ m < n ∧ m.toNat < n.toNat) :=
  ⟨calculate_fibonacci_fuel_eq _ n (by omega) (by omega),
    fun fuel => calculate_fibonacci_fuel_eq fuel n, fun m => fib_calls_smaller n m⟩

/-- C13 at `n = -5` (one level, no call) and at the call `10 -> 9`. -/
theorem calculate_fibonacci_terminates_witness :
    calculate_fibonacci_fuel 1 (-5) = some (calculate_fibonacci (-5)) ∧
      ((2 : Int) ≤ 10 ∧ (9 : Int) < 10 ∧ Int.toNat 9 < Int.toNat 10) :=
  ⟨(calculate_fibonacci_terminates (-5)).2.1 1 (by decide) (by decide),
    (calculate_fibonacci_terminates 10).2.2 9 (by decide)⟩

/-! ### The 32-bit range of the Fibonacci results -/

theorem calculate_fibonacci_checked_base {n : Int} (h : n ≤ 1) :
    calculate_fibonacci_checked n = some n := by
  rw [calculate_fibonacci_checked, if_pos h]

theorem calculate_fibonacci_checked_step {n : Int} (h : 2 ≤ n) (a b : Int)
    (ha : calculate_fibonacci_checked (n - 1) = some a)
    (hb : calculate_fibonacci_checked (n - 2) = some b) :
    calculate_fibonacci_checked n = if InIntRange (a + b) then some (a + b) else none := by
  rw [calculate_fibonacci_checked, if_neg (by omega), ha, hb]

/-- Up to `n = 46` every addition of the recursion stays in the `int`
range, and the checked run returns the reference value. -/
theorem calculate_fibonacci_checked_exact (n : Nat) (h : n ≤ 46) :
    calculate_fibonacci_checked (n : Int) = some (fib_spec n : Int) := by
  induction n using Nat.strong_induction_on with
  | _ n ih =>
    match n with
    | 0 => rw [calculate_fibonacci_checked_base (by norm_num)]; rfl
    | 1 => rw [calculate_fibonacci_checked_base (by norm_num)]; rfl
    | k + 2 =>
      have e1 : ((k + 2 : Nat) : Int) - 1 = ((k + 1 : Nat) : Int) := by omega
      have e2 : ((k + 2 : Nat) : Int) - 2 = (k : Int) := by omega
      have h1 := ih (k + 1) (by omega) (by omega)
      have h2 := ih k (by omega) (by omega)
      rw [← e1] at h1
      rw [← e2] at h2
      have hsum : (fib_spec (k + 1) : Int) + (fib_spec k : Int) = (fib_spec (k + 2) : Int) := by
        rw [fib_spec]; push_cast; rfl
      rw [calculate_fibonacci_checked_step (by omega) _ _ h1 h2, hsum,
        if_pos (fib_spec_inRange h)]

theorem calculate_fibonacci_checked_45 :
    calculate_fibonacci_checked 45 = some 1134903170 := by
  have h := calculate_fibonacci_checked_exact 45 (by norm_num)
  rw [fib_spec_45] at h
  exact_mod_cast h

theorem calculate_fibonacci_checked_46 :
    calculate_fibonacci_checked 46 = some 1836311903 := by
  have h := calculate_fibonacci_checked_exact 46 (by norm_num)
  rw [fib_spec_46] at h
  exact_mod_cast h

theorem calculate_fibonacci_checked_47 : calculate_fibonacci_checked 47 = none := by
  have h46 : calculate_fibonacci_checked (47 - 1) = some 1836311903 :=
    calculate_fibonacci_checked_46
  have h45 : calculate_fibonacci_checked (47 - 2) = some 1134903170 :=
    calculate_fibonacci_checked_45
  rw [calculate_fibonacci_checked_step (by decide) _ _ h46 h45]
  decide

/-- C14: with 32-bit `int` arithmetic, for every `n` with `0 <= n <= 46` no
addition anywhere in the recursion of `calculate_fibonacci n` overflows and
the result is the reference value `F(n) <= 2^31 - 1`, with
`F(46) = 1836311903`; `F(47) = 2971215073` is above `2^31 - 1`, the two
nested calls of `calculate_fibonacci 47` complete without overflow, the
addition of their results overflows, and the result reduced modulo `2^32`
is not `F(47)`. -/
theorem calculate_fibonacci_overflow_threshold :
    (∀ n : Int, 0 ≤ n → n ≤ 46 →
        calculate_fibonacci_checked n = some (fib_spec n.toNat : Int) ∧
          calculate_fibonacci n = (fib_spec n.toNat : Int) ∧
          (fib_spec n.toNat : Int) ≤ INT_MAX) ∧
      fib_spec 46 = 1836311903 ∧ fib_spec 47 = 2971215073 ∧
      INT_MAX < (fib_spec 47 : Int) ∧
      calculate_fibonacci_checked (47 - 1) = some 1836311903 ∧
      calculate_fibonacci_checked (47 - 2) = some 1134903170 ∧
      ¬ InIntRange (1836311903 + 1134903170) ∧
      calculate_fibonacci_checked 47 = none ∧
      calculate_fibonacci 47 = wrap32 (fib_spec 47 : Int) ∧
      calculate_fibonacci 47 ≠ (fib_spec 47 : Int) := by
  refine ⟨?_, fib_spec_46, fib_spec_47, ?_, calculate_fibonacci_checked_46,
    calculate_fibonacci_checked_45, by decide, calculate_fibonacci_checked_47,
    calculate_fibonacci_eq_wrap 47, ?_⟩
  · intro n h0 h46
    obtain ⟨k, rfl⟩ := Int.eq_ofNat_of_zero_le h0
    rw [Int.toNat_ofNat]
    have hk : k ≤ 46 := by omega
    exact ⟨calculate_fibonacci_checked_exact k hk, calculate_fibonacci_exact k hk,
      (fib_spec_inRange hk).2⟩
  · rw [fib_spec_47]; decide
  · rw [calculate_fibonacci_47, fib_spec_47]; decide

/-- C14 at `n = 46`, the last argument without overflow. -/
theorem calculate_fibonacci_overflow_threshold_witness :
    calculate_fibonacci_checked 46 = some (fib_spec (Int.toNat 46) : Int) ∧
      calculate_fibonacci 46 = (fib_spec (Int.toNat 46) : Int) ∧
      (fib_spec (Int.toNat 46) : Int) ≤ INT_MAX :=
  calculate_fibonacci_overflow_threshold.1 46 (by decide) (by decide)

/-! ### Length of the label -/

theorem format_point_char_count (x y : Int) :
    (format_point x y).length = 8 + (format_int x).length + (format_int y).length := by
  unfold format_point
  simp only [List.length_append]
  have h1 : ("Point(".toList).length = 6 := rfl
  have h2 : (",".toList).length = 1 := rfl
  have h3 : (")".toList).length = 1 := rfl
  omega

/-- C15: for every pair of integers the string written by `update_point`
has `8 + len(decimal(new_x)) + len(decimal(new_y))` characters, a minus
sign counted; it fits the 20-byte `name` array with its terminating NUL
exactly when the two decimal lengths sum to at most 11, and exactly then
the call is defined and leaves the string and its NUL at the start of
`name`.  The call with `(42, 84)` writes 12 characters and the NUL and
fits; `(-2147483648, -2147483648)` needs 31 bytes and does not. -/
theorem format_point_length (p : Point) (new_x new_y : Int) :
    (format_point new_x new_y).length
        = 8 + (format_int new_x).length + (format_int new_y).length ∧
      (label_fits new_x new_y ↔ (format_int new_x).length + (format_int new_y).length ≤ 11) ∧
      ((format_int new_x).length + (format_int new_y).length ≤ 11 →
        ∃ q, update_point p new_x new_y = some q ∧
          q.name.val = format_point new_x new_y ++ '\x00' ::
            p.name.val.drop ((format_point new_x new_y).length + 1)) ∧
      (¬ (format_int new_x).length + (format_int new_y).length ≤ 11 →
        update_point p new_x new_y = none) ∧
      (format_int 42).length = 2 ∧ (format_int (-2147483648)).length = 11 ∧
      (format_point 42 84).length = 12 ∧ label_fits 42 84 ∧
      (format_point (-2147483648) (-2147483648)).length + 1 = 31 ∧
      ¬ label_fits (-2147483648) (-2147483648) := by
  have hlen := format_point_char_count new_x new_y
  have hfit : label_fits new_x new_y ↔
      (format_int new_x).length + (format_int new_y).length ≤ 11 := by
    unfold label_fits NAME_SIZE
    omega
  refine ⟨hlen, hfit, ?_, ?_, by decide, by decide, by decide, by decide, by decide,
    by decide⟩
  · intro h
    obtain ⟨q, hq, -, -, hn⟩ := update_point_some p new_x new_y (hfit.mpr h)
    exact ⟨q, hq, hn⟩
  · intro h
    exact update_point_none p new_x new_y (fun hf => h (hfit.mp hf))

/-- C15 on the record `point_junk`: the call with `(42, 84)` is defined, the
call with `(-2147483648, -2147483648)` is not. -/
theorem format_point_length_witness :
    (∃ q, update_point point_junk 42 84 = some q ∧
        q.name.val = format_point 42 84 ++ '\x00' ::
          point_junk.name.val.drop ((format_point 42 84).length + 1)) ∧
      update_point point_junk (-2147483648) (-2147483648) = none :=
  ⟨(format_point_length point_junk 42 84).2.2.1 (by decide),
    (format_point_length point_junk (-2147483648) (-2147483648)).2.2.2.1 (by decide)⟩

/-! ### Element accesses of `sum_array` -/

/-- Dropping the record of accesses gives back the loop of `sum_array`. -/
theorem sum_array_loop_reads_fst (arr : List Int) (size : Int) :
    ∀ (k i : Nat) (sum : Int) (reads : List Nat), (size - i).toNat = k →
      (sum_array_loop_reads arr size i sum reads).map Prod.fst
        = sum_array_loop arr size i sum := by
  intro k
  induction k using Nat.strong_induction_on with
  | _ k ih =>
    intro i sum reads hk
    rw [sum_array_loop_reads, sum_array_loop]
    by_cases hlt : (i : Int) < size
    · rw [if_pos hlt, if_pos hlt]
      cases hget : arr[i]? with
      | none => rfl
      | some a =>
        simp only
        exact ih ((size - (i + 1 : Nat)).toNat) (by omega) (i + 1) _ _ rfl
    · rw [if_neg hlt, if_neg hlt]
      rfl

/-- With `k` iterations left, all inside the array, the loop reads the
indices `i, i + 1, ..., i + k - 1`, in this order, and nothing else. -/
theorem sum_array_loop_reads_eq (arr : List Int) (size : Int) :
    ∀ (k i : Nat) (sum : Int) (reads : List Nat), (i : Int) + k = size →
      i + k ≤ arr.length →
      sum_array_loop_reads arr size i sum reads
        = some (((arr.drop i).take k).foldl (fun acc a => wrap32 (acc + a)) sum,
            reads ++ List.range' i k) := by
  intro k
  induction k with
  | zero =>
    intro i sum reads hsz _
    rw [sum_array_loop_reads, if_neg (by omega)]
    simp
  | succ k ih =>
    intro i sum reads hsz hlen
    have hi : i < arr.length := by omega
    rw [sum_array_loop_reads, if_pos (by omega), List.getElem?_eq_getElem hi]
    simp only
    rw [ih (i + 1) _ _ (by omega) (by omega), List.drop_eq_getElem_cons hi,
      List.take_succ_cons, List.foldl_cons, List.range'_succ, List.append_assoc]
    rfl

theorem sum_array_reads_nonpos (arr : List Int) (size : Int) (h : size ≤ 0) :
    sum_array_reads arr size = some (0, []) := by
  unfold sum_array_reads
  rw [sum_array_loop_reads, if_neg (by omega)]

theorem sum_array_nonpos (arr : List Int) (size : Int) (h : size ≤ 0) :
    sum_array arr size = some 0 := by
  unfold sum_array
  rw [sum_array_loop, if_neg (by omega)]

/-- C16: for every array and every `size <= 0`, zero or negative,
`sum_array` reads no element and returns 0; for every `size` not beyond the
array the loop body runs exactly `max(size, 0)` times, reading the indices
`0, ..., max(size, 0) - 1` once each. -/
theorem sum_array_iterations (arr : List Int) (size : Int) :
    (sum_array_reads arr size).map Prod.fst = sum_array arr size ∧
      (size ≤ 0 → sum_array arr size = some 0 ∧ sum_array_reads arr size = some (0, [])) ∧
      (size ≤ arr.length →
        ∃ v reads, sum_array_reads arr size = some (v, reads) ∧
          reads = List.range (max size 0).toNat ∧ reads.length = (max size 0).toNat) := by
  refine ⟨sum_array_loop_reads_fst arr size _ 0 0 [] rfl,
    fun h => ⟨sum_array_nonpos arr size h, sum_array_reads_nonpos arr size h⟩, fun hlen => ?_⟩
  by_cases h : size ≤ 0
  · refine ⟨0, [], sum_array_reads_nonpos arr size h, ?_, ?_⟩
    · rw [max_eq_right h]; rfl
    · rw [max_eq_right h]; rfl
  · have hmax : max size 0 = size := max_eq_left (by omega)
    refine ⟨_, _, sum_array_loop_reads_eq arr size size.toNat 0 0 [] (by omega) (by omega),
      ?_, ?_⟩
    · rw [hmax, List.nil_append, List.range_eq_range']
    · rw [hmax, List.nil_append, List.length_range']

/-- C16 on the array `{5, 6, 7}`: with `size = -3` nothing is read and the
result is 0; with `size = 2` the body runs twice. -/
theorem sum_array_iterations_witness :
    (sum_array [5, 6, 7] (-3) = some 0 ∧ sum_array_reads [5, 6, 7] (-3) = some (0, [])) ∧
      (∃ v reads, sum_array_reads [5, 6, 7] 2 = some (v, reads) ∧
        reads = List.range (max (2 : Int) 0).toNat ∧ reads.length = (max (2 : Int) 0).toNat) :=
  ⟨(sum_array_iterations [5, 6, 7] (-3)).2.1 (by decide),
    (sum_array_iterations [5, 6, 7] 2).2.2 (by decide)⟩

end Experiment
